/-
Verification of the zap_timestamp canonicalization engine
(syzygy/zap_timestamp/zap_timestamp.cc) against its specification.

The development is a shallow embedding of the functions of
zap_timestamp.cc over pure data:

* Files and PDB streams are `List Nat` of byte values; positions are `Nat`
  file offsets.
* The patch address space (`core::AddressSpace`, external to the sources;
  modelled from the spec, section 4.1) is a list of non-overlapping
  entries kept sorted by start offset.
* External I/O outcomes that the code branches on (fseek failures, short
  fwrites) are supplied by explicit oracles, so that the error-handling
  paths of the code can be examined.
* MD5 (base::md5, external) is an abstract function from the consumed
  byte stream to a digest; the claims about GUID derivation are proved
  for every such function.
* Loops whose C++ termination argument is pointer progress are given a
  fuel parameter large enough to be unreachable on the paths the
  theorems speak about.

DCHECK conditions of the source are modelled as run-time guards whose
violation yields `none` (mirroring the debug-build abort; in a release
build the corresponding C++ execution would be out of bounds).
-/
import Mathlib

namespace ZapTimestamp

/-- Little-endian byte encoding of a 32-bit value, as it sits in the PE
file and the PDB streams (the formats are little-endian). -/
def le32 (v : Nat) : List Nat :=
  [v % 256, v / 256 % 256, v / 65536 % 256, v / 16777216 % 256]

/-- Read a little-endian u32 at byte offset `p` of a buffer; `none` when
any of the four bytes is out of bounds. -/
def readU32 (s : List Nat) (p : Nat) : Option Nat :=
  match s.get? p, s.get? (p + 1), s.get? (p + 2), s.get? (p + 3) with
  | some a, some b, some c, some d => some (a + 256 * (b + 256 * (c + 256 * d)))
  | _, _, _, _ => none

/-- Overwrite `bs.length` bytes of `s` starting at offset `p`, in place.
`none` when the write would run past the end of the buffer (the C++
counterpart would be an out-of-bounds write into the stream's heap
buffer). -/
def setBytes (s : List Nat) (p : Nat) (bs : List Nat) : Option (List Nat) :=
  if p + bs.length ≤ s.length then
    some (s.take p ++ bs ++ s.drop (p + bs.length))
  else
    none

/-- Labels of the patch entries created by `ZapTimestamp::MarkPeFileRanges`
(the C++ code uses debug-name strings; the tag also records the debug
directory index of the `StringPrintf` name). -/
inductive PatchTag where
  | exportTs
  | resourceTs
  | debugTs (i : Nat)
  | pdbAge
  | pdbGuid
  | peChecksum
  | peTimestamp
deriving DecidableEq

/-- One entry of the patch address space: a file-offset range
`[start, start+size)` plus its replacement data. `data = none` is the
NULL data pointer of the PE-checksum sentinel ("compute later"). -/
structure PatchEntry where
  start : Nat
  size : Nat
  data : Option (List Nat)
  tag : PatchTag
deriving DecidableEq

/-- Modelled from the spec: `core::AddressSpace::Insert` (section 4.1 of
the spec; the container itself is external to the sources). The entries
are kept sorted by start offset; insertion fails iff the new range
intersects an existing one (adjacency allowed); zero-size ranges are
rejected. -/
def Insert : List PatchEntry → PatchEntry → Option (List PatchEntry)
  | [], e => if e.size = 0 then none else some [e]
  | x :: xs, e =>
    if e.size = 0 then none
    else if e.start + e.size ≤ x.start then some (e :: x :: xs)
    else if x.start + x.size ≤ e.start then (Insert xs e).map (x :: ·)
    else none

/-- What `MarkDataDirectoryTimestamps` sees of one data directory after
the external block-graph navigation: the file offset of its
`TimeDateStamp` field and that field's current value. An absent
directory is `none` at the use site. -/
structure DataDirView where
  timestampOffset : Nat
  timeDateStamp : Nat
deriving DecidableEq

/-- Constructor `ZapTimestamp::ZapTimestamp`: `timestamp_data_ = 1262304000`
(Jan 1, 2010, 0:00:00 GMT; deliberately not zero). -/
def timestamp_data_ : Nat := 1262304000

/-- Constructor `ZapTimestamp::ZapTimestamp`: `pdb_age_data_ = 1`. -/
def pdb_age_data_ : Nat := 1

/-- The patch entry `MarkDataDirectoryTimestamps` inserts for a
directory's `TimeDateStamp` (4 bytes of `timestamp_data_`). -/
def tsEntry (d : DataDirView) (tag : PatchTag) : PatchEntry :=
  ⟨d.timestampOffset, 4, some (le32 timestamp_data_), tag⟩

/-- `MarkDataDirectoryTimestamps<T>`: an absent directory is not an
error and adds nothing; a present directory whose current TimeDateStamp
is zero adds nothing; otherwise a 4-byte entry holding the constant
timestamp is inserted (failure of the insertion is propagated). The
returned list records the tags of the entries inserted, in order. -/
def MarkDataDirectoryTimestamps (dir : Option DataDirView) (tag : PatchTag)
    (sp : List PatchEntry) : Option (List PatchEntry × List PatchTag) :=
  match dir with
  | none => some (sp, [])
  | some d =>
    if d.timeDateStamp = 0 then some (sp, [])
    else
      match Insert sp (tsEntry d tag) with
      | none => none
      | some sp1 => some (sp1, [tag])

/-- What the loop over the debug directory sees of the CodeView record:
the file offsets of the `pdb_age` and `signature` fields of the
referenced `CvInfoPdb70`. -/
structure CodeViewView where
  ageOffset : Nat
  guidOffset : Nat
deriving DecidableEq

/-- One `IMAGE_DEBUG_DIRECTORY` entry as seen by `MarkPeFileRanges`: the
file offset of its `TimeDateStamp`, and the CodeView record it points to
when its `Type` is `IMAGE_DEBUG_TYPE_CODEVIEW`. -/
structure DebugEntryView where
  tsOffset : Nat
  codeView : Option CodeViewView
deriving DecidableEq

/-- The loop of `MarkPeFileRanges` over the debug directory entries:
each entry's `TimeDateStamp` is marked with the constant timestamp, and
the single CodeView record is tracked; a second CodeView entry is the
fatal "Found multiple CodeView debug directories" error. -/
def MarkDebugEntries : List DebugEntryView → Nat → Option CodeViewView →
    List PatchEntry → Option (List PatchEntry × List PatchTag × Option CodeViewView)
  | [], _, cv, sp => some (sp, [], cv)
  | e :: rest, i, cv, sp =>
    match Insert sp ⟨e.tsOffset, 4, some (le32 timestamp_data_), PatchTag.debugTs i⟩ with
    | none => none
    | some sp1 =>
      match e.codeView with
      | none =>
        (MarkDebugEntries rest (i + 1) cv sp1).map
          (fun r => (r.1, PatchTag.debugTs i :: r.2.1, r.2.2))
      | some c =>
        match cv with
        | some _ => none
        | none =>
          (MarkDebugEntries rest (i + 1) (some c) sp1).map
            (fun r => (r.1, PatchTag.debugTs i :: r.2.1, r.2.2))

/-- The `if (!input_pdb_.empty())` block of `MarkPeFileRanges`: when a
PDB is produced, a CodeView record must have been found, and its
`pdb_age` (4 bytes of `pdb_age_data_`) and then its `signature`
(16 bytes aliasing `pdb_guid_data_`) are marked. -/
def MarkCvEntries (hasPdb : Bool) (cv : Option CodeViewView) (guid : List Nat)
    (sp : List PatchEntry) : Option (List PatchEntry × List PatchTag) :=
  if hasPdb then
    match cv with
    | none => none
    | some c =>
      match Insert sp ⟨c.ageOffset, 4, some (le32 pdb_age_data_), PatchTag.pdbAge⟩ with
      | none => none
      | some sp1 =>
        match Insert sp1 ⟨c.guidOffset, 16, some guid, PatchTag.pdbGuid⟩ with
        | none => none
        | some sp2 => some (sp2, [PatchTag.pdbAge, PatchTag.pdbGuid])
  else some (sp, [])

/-- What `MarkPeFileRanges` sees of the decomposed PE file after the
external block-graph navigation and RVA-to-file-offset translation. -/
structure PEView where
  exportDir : Option DataDirView
  resourceDir : Option DataDirView
  debugEntries : List DebugEntryView
  checksumOffset : Nat
  peTimestampOffset : Nat
  hasPdb : Bool
deriving DecidableEq

/-- `ZapTimestamp::MarkPeFileRanges`, in the statement order of the
source: export directory timestamp, resource directory timestamp, the
debug directory entries (tracking the CodeView record), the PDB age and
GUID when a PDB is produced, then the PE checksum sentinel (NULL data),
and finally the PE FileHeader timestamp. Besides the resulting patch
space it returns the tags of all inserted entries in insertion order. -/
def MarkPeFileRanges (pe : PEView) (guid : List Nat) (sp : List PatchEntry) :
    Option (List PatchEntry × List PatchTag) :=
  match MarkDataDirectoryTimestamps pe.exportDir PatchTag.exportTs sp with
  | none => none
  | some (sp1, n1) =>
    match MarkDataDirectoryTimestamps pe.resourceDir PatchTag.resourceTs sp1 with
    | none => none
    | some (sp2, n2) =>
      match MarkDebugEntries pe.debugEntries 0 none sp2 with
      | none => none
      | some (sp3, n3, cv) =>
        match MarkCvEntries pe.hasPdb cv guid sp3 with
        | none => none
        | some (sp4, n4) =>
          match Insert sp4 ⟨pe.checksumOffset, 4, none, PatchTag.peChecksum⟩ with
          | none => none
          | some sp5 =>
            match Insert sp5 ⟨pe.peTimestampOffset, 4, some (le32 timestamp_data_),
                PatchTag.peTimestamp⟩ with
            | none => none
            | some sp6 =>
              some (sp6, n1 ++ n2 ++ n3 ++ n4 ++ [PatchTag.peChecksum, PatchTag.peTimestamp])

/-- `Md5Consume`: read `bytes` bytes from the file position `pos` in 4096
byte chunks, feeding each chunk to the MD5 context (modelled as the list
of bytes consumed so far). A short `fread` is the fatal "Error reading
from file" return. The fuel only bounds the chunk loop; `bytes + 1` is
always sufficient since every iteration reads at least one byte. -/
def Md5Consume (fuel : Nat) (file : List Nat) (bytes cur pos : Nat) (ctx : List Nat) :
    Option (List Nat × Nat) :=
  match fuel with
  | 0 => none
  | f + 1 =>
    if cur < bytes then
      let bytesToRead := min (bytes - cur) 4096
      let chunk := (file.drop pos).take bytesToRead
      if chunk.length = bytesToRead then
        Md5Consume f file bytes (cur + bytesToRead) (pos + bytesToRead) (ctx ++ chunk)
      else none
    else some (ctx, pos)

/-- One call `Md5Consume(bytes, file, context)` of the source, starting
its local counter at zero. -/
def Md5ConsumeRun (file : List Nat) (bytes pos : Nat) (ctx : List Nat) :
    Option (List Nat × Nat) :=
  Md5Consume (bytes + 1) file bytes 0 pos ctx

/-- The range loop of `ZapTimestamp::CalculatePdbGuid`: hash the gap
before each marked range, then `fseek` forward past the range. A failed
`fseek` (`i ∈ failedSeeks`, leaving the stream position unmoved) is only
logged by the code — the loop continues. After the last range the
remaining tail of the file is hashed. -/
def CalcGuidLoop (file : List Nat) (failedSeeks : List Nat) (i : Nat) :
    List (Nat × Nat) → Nat → Nat → List Nat → Option (List Nat)
  | [], cur, pos, ctx =>
    if cur < file.length then
      match Md5ConsumeRun file (file.length - cur) pos ctx with
      | none => none
      | some (ctx1, _) => some ctx1
    else some ctx
  | (start, size) :: rest, cur, pos, ctx =>
    match (if cur < start then Md5ConsumeRun file (start - cur) pos ctx
           else some (ctx, pos)) with
    | none => none
    | some (ctx1, pos1) =>
      let pos2 := if i ∈ failedSeeks then pos1 else pos1 + size
      CalcGuidLoop file failedSeeks (i + 1) rest (start + size) pos2 ctx1

/-- `ZapTimestamp::CalculatePdbGuid`: walk the patch ranges in ascending
order, hash every byte outside them, and finalize the digest into
`pdb_guid_data_`. `md5` abstracts the external `base::md5` streaming
hash (`MD5Init` is the empty context, `MD5Final` is the application of
`md5` to the consumed stream); `ranges` is the ascending range iteration
of `pe_file_addr_space_`. -/
def CalculatePdbGuid (md5 : List Nat → List Nat) (failedSeeks : List Nat)
    (file : List Nat) (ranges : List (Nat × Nat)) : Option (List Nat) :=
  (CalcGuidLoop file failedSeeks 0 ranges 0 0 []).map md5

/-- Well-formedness of the range iteration that `pe_file_addr_space_`
guarantees: ranges sorted ascending, pairwise disjoint, inside the file. -/
def chainOk (len : Nat) : Nat → List (Nat × Nat) → Bool
  | _, [] => true
  | cur, (start, size) :: rest =>
    decide (cur ≤ start) && decide (start + size ≤ len) && chainOk len (start + size) rest

/-- Whether file offset `i` lies inside one of the given ranges. -/
def coveredBy (ranges : List (Nat × Nat)) (i : Nat) : Bool :=
  ranges.any (fun r => decide (r.1 ≤ i) && decide (i < r.1 + r.2))

/-- The byte stream the claim describes: every byte of the file not
covered by any range of the patch space, in ascending file-offset
order. -/
def uncoveredBytes (file : List Nat) (ranges : List (Nat × Nat)) : List Nat :=
  ((List.range file.length).filter (fun i => !coveredBy ranges i)).filterMap
    (fun i => file.get? i)

/-- `MD5Final` stores the digest into `pdb_guid_data_`, which the
"PDB GUID" patch entry's data pointer aliases: after finalization every
entry tagged `pdbGuid` carries the digest. -/
def updateGuidData (sp : List PatchEntry) (d : List Nat) : List PatchEntry :=
  sp.map (fun e => if e.tag = PatchTag.pdbGuid then { e with data := some d } else e)

/-- An `fwrite` of `bs` at position `pos` of the file (a position past
the end first extends the file with zero bytes, as the C library does
for a sparse seek-then-write). -/
def writeAt (file : List Nat) (pos : Nat) (bs : List Nat) : List Nat :=
  let f := file ++ List.replicate (pos - file.length) 0
  f.take pos ++ bs ++ f.drop (pos + bs.length)

/-- The entry loop of `UpdateFileInPlace`. `seekOk i` tells whether the
`fseek` for the i-th entry succeeds (failure returns false), and
`written i` how many bytes the `fwrite` for it reports (a short write is
only logged: the loop continues and the function still succeeds).
Entries with NULL data (the PE checksum) are skipped. -/
def UpdateLoop (seekOk : Nat → Bool) (written : Nat → Nat) (i : Nat)
    (file : List Nat) : List PatchEntry → Option (List Nat)
  | [] => some file
  | e :: rest =>
    match e.data with
    | none => UpdateLoop seekOk written (i + 1) file rest
    | some bs =>
      if seekOk i then
        let bytesWritten := min (written i) e.size
        UpdateLoop seekOk written (i + 1) (writeAt file e.start (bs.take bytesWritten)) rest
      else none

/-- `UpdateFileInPlace`: apply every patch entry (ascending order) to
the file. -/
def UpdateFileInPlace (seekOk : Nat → Bool) (written : Nat → Nat)
    (file : List Nat) (updates : List PatchEntry) : Option (List Nat) :=
  UpdateLoop seekOk written 0 file updates

/-- Modelled from the spec: byte offset of the `timestamp` field of
`PdbInfoHeader70` (the layout lives in the external pdb data headers;
the spec, section 4.4.2, places `timestamp`, `age` and the 16-byte
`signature` adjacently after the u32 `version`). -/
def pdbInfoTimestampOffset : Nat := 4

/-- Byte offset of the `age` field of `PdbInfoHeader70` (follows the u32
`timestamp`). -/
def pdbInfoAgeOffset : Nat := 8

/-- The header-info-stream update of `ZapTimestamp::LoadAndUpdatePdbFile`:
`set_pos(offsetof(PdbInfoHeader70, timestamp))`, then write the constant
timestamp, the constant age, and the derived GUID back to back. -/
def UpdatePdbHeaderInfo (guid : List Nat) (s : List Nat) : Option (List Nat) :=
  match setBytes s pdbInfoTimestampOffset (le32 timestamp_data_) with
  | none => none
  | some s1 =>
    match setBytes s1 (pdbInfoTimestampOffset + 4) (le32 pdb_age_data_) with
    | none => none
    | some s2 => setBytes s2 (pdbInfoTimestampOffset + 8) guid

/-- Modelled from the spec: `sizeof(pdb::DbiHeader)` (the struct lives
in the external pdb data headers; the spec, section 4.4.3, lists its
fields — the standard DBI layout makes it 64 bytes). -/
def dbiHeaderSize : Nat := 64

/-- Byte offset of `DbiHeader::age` (after the u32 signature and
version). -/
def dbiAgeOffset : Nat := 8

/-- Byte offset of `DbiHeader::gp_modi_size`. -/
def gpModiSizeOffset : Nat := 24

/-- Byte offset of `DbiHeader::section_contribution_size`. -/
def sectionContribSizeOffset : Nat := 28

/-- Modelled from the spec: `sizeof(pdb::DbiModuleInfoBase)` (64 bytes
in the standard DBI layout). -/
def dbiModuleInfoBaseSize : Nat := 64

/-- Byte offset of `DbiModuleInfoBase::offsets` (u32). -/
def dbiOffsetsFieldOffset : Nat := 52

/-- Modelled from the spec: `sizeof(pdb::DbiSectionContrib)` (28 bytes). -/
def dbiSectionContribSize : Nat := 28

/-- Byte offset of `DbiSectionContrib::pad1` (i16). -/
def dbiPad1Offset : Nat := 2

/-- Byte offset of `DbiSectionContrib::pad2` (i16). -/
def dbiPad2Offset : Nat := 26

/-- Error outcomes of `NormalizeDbiStream`. `tooShort` is the "DBI
stream too short" return, `invalidModi` and `invalidContrib` the two
"Invalid DBI header gp_modi_size" returns; `oob` marks a buffer access
past the end of the stream (undefined behaviour of the C++); `fuelOut`
is the model's unreachable fuel exhaustion. -/
inductive DbiErr where
  | tooShort
  | invalidModi
  | invalidContrib
  | oob
  | fuelOut
deriving DecidableEq

/-- The `while (*dbi_data != 0) ++dbi_data;` scan: first offset at or
after `p` holding a zero byte; `none` when the scan runs past the end of
the buffer (out-of-bounds read — the scan has no bound of its own). -/
def ScanNul (fuel : Nat) (s : List Nat) (p : Nat) : Option Nat :=
  match fuel with
  | 0 => none
  | f + 1 =>
    match s.get? p with
    | none => none
    | some 0 => some p
    | some _ => ScanNul f s (p + 1)

/-- The module-information walk of `NormalizeDbiStream`: while the
cursor is before `module_info_end`, zero the `offsets` field of the
`DbiModuleInfoBase` at the cursor, skip the fixed struct, skip two
NUL-terminated strings, and round the cursor up to a multiple of 4.
Returns the updated stream and the final cursor. -/
def ModiWalk (fuel : Nat) (s : List Nat) (p endP : Nat) :
    Except DbiErr (List Nat × Nat) :=
  match fuel with
  | 0 => Except.error DbiErr.fuelOut
  | f + 1 =>
    if p < endP then
      match setBytes s (p + dbiOffsetsFieldOffset) (le32 0) with
      | none => Except.error DbiErr.oob
      | some s1 =>
        match ScanNul (s1.length + 1) s1 (p + dbiModuleInfoBaseSize) with
        | none => Except.error DbiErr.oob
        | some q1 =>
          match ScanNul (s1.length + 1) s1 (q1 + 1) with
          | none => Except.error DbiErr.oob
          | some q2 => ModiWalk f s1 ((q2 + 1 + 3) / 4 * 4) endP
    else Except.ok (s, p)

/-- The section-contribution walk of `NormalizeDbiStream`: zero the
`pad1` and `pad2` fields of each fixed-size `DbiSectionContrib`. -/
def ContribWalk (fuel : Nat) (s : List Nat) (p endP : Nat) :
    Except DbiErr (List Nat) :=
  match fuel with
  | 0 => Except.error DbiErr.fuelOut
  | f + 1 =>
    if p < endP then
      match setBytes s (p + dbiPad1Offset) [0, 0] with
      | none => Except.error DbiErr.oob
      | some s1 =>
        match setBytes s1 (p + dbiPad2Offset) [0, 0] with
        | none => Except.error DbiErr.oob
        | some s2 => ContribWalk f s2 (p + dbiSectionContribSize) endP
    else Except.ok s

/-- `NormalizeDbiStream`: reject a stream shorter than the DBI header;
write `pdb_age_data` into the header's age; reject when
`length < gp_modi_size` and walk the module information from the end of
the header to `sizeof(DbiHeader) + gp_modi_size`; reject when
`length < gp_modi_size + 4 + section_contribution_size`; skip the u32
signature and walk the section contributions from wherever the module
walk left the cursor. Note the length checks compare against the stream
length exactly as the source does (without adding the header size). -/
def NormalizeDbiStream (pdb_age_data : Nat) (s : List Nat) :
    Except DbiErr (List Nat) :=
  if s.length < dbiHeaderSize then Except.error DbiErr.tooShort
  else
    match setBytes s dbiAgeOffset (le32 pdb_age_data) with
    | none => Except.error DbiErr.oob
    | some s1 =>
      match readU32 s1 gpModiSizeOffset, readU32 s1 sectionContribSizeOffset with
      | some gpModiSize, some sectionContribSize =>
        if s1.length < gpModiSize then Except.error DbiErr.invalidModi
        else
          match ModiWalk (s1.length + 1) s1 dbiHeaderSize (dbiHeaderSize + gpModiSize) with
          | Except.error e => Except.error e
          | Except.ok (s2, p) =>
            if s2.length < gpModiSize + 4 + sectionContribSize then
              Except.error DbiErr.invalidContrib
            else ContribWalk (s2.length + 1) s2 (p + 4) (p + 4 + sectionContribSize)
      | _, _ => Except.error DbiErr.oob

/-- The `for (; tail + 1 < end && *tail != 0; ++tail)` scan of
`NormalizeSymbolRecordStream`, over the bytes of one whole record
(size field included): advance while the byte at `tail` is non-zero and
`tail + 1` is still before the end of the record. -/
def FindNulTail (fuel : Nat) (rec : List Nat) (tail : Nat) : Nat :=
  match fuel with
  | 0 => tail
  | f + 1 =>
    if tail + 1 < rec.length ∧ rec.getD tail 0 ≠ 0 then FindNulTail f rec (tail + 1)
    else tail

/-- The `for (; tail < end; ++tail) *tail = 0;` loop: zero every byte of
the record from index `t` on. -/
def ZeroFrom : List Nat → Nat → List Nat
  | [], _ => []
  | _ :: bs, 0 => 0 :: ZeroFrom bs 0
  | b :: bs, t + 1 => b :: ZeroFrom bs t

/-- The record loop of `NormalizeSymbolRecordStream` over the stream
bytes: read the u16 record size (little endian), check the DCHECKed
framing invariants (size at least 2, size plus 2 a multiple of 4) and
that the record fits in the stream, locate the tail NUL starting from
`end - 3` (index `size - 1` of the record bytes, size field included)
and zero the record from there; then continue after the record. -/
def SymRecWalk (fuel : Nat) : List Nat → Option (List Nat)
  | [] => some []
  | [_] => none
  | b0 :: b1 :: rest =>
    match fuel with
    | 0 => none
    | f + 1 =>
      let size := b0 + 256 * b1
      if 2 ≤ size ∧ (size + 2) % 4 = 0 ∧ size ≤ rest.length then
        let recBytes := b0 :: b1 :: rest.take size
        let t := FindNulTail recBytes.length recBytes (recBytes.length - 3)
        match SymRecWalk f (rest.drop size) with
        | none => none
        | some tl => some (ZeroFrom recBytes t ++ tl)
      else none

/-- `NormalizeSymbolRecordStream` on the bytes of the stream. -/
def NormalizeSymbolRecordStream (s : List Nat) : Option (List Nat) :=
  SymRecWalk (s.length + 1) s

/-- Number of entries of the patch space carrying a given tag. -/
def countTag (sp : List PatchEntry) (t : PatchTag) : Nat :=
  sp.countP (fun e => decide (e.tag = t))

/-- The replacement data of the first entry carrying a given tag. -/
def lookupTag (sp : List PatchEntry) (t : PatchTag) : Option (Option (List Nat)) :=
  (sp.find? (fun e => decide (e.tag = t))).map (fun e => e.data)

/-- Follows the claim wording of C6: a timestamp patch entry is wanted
for a data directory exactly when the directory exists and its current
TimeDateStamp is non-zero. -/
def wantsPatch : Option DataDirView → Bool
  | none => false
  | some d => d.timeDateStamp != 0

/-- A PE view with every optional part present: export and resource
directories with non-zero timestamps, one debug entry carrying the
CodeView record, and a PDB being produced. All marked fields at distinct
file offsets. -/
def richPe : PEView :=
  ⟨some ⟨100, 5⟩, some ⟨200, 7⟩, [⟨300, some ⟨400, 404⟩⟩], 500, 600, true⟩

/-- A PE view with no data directories, no debug entries and no PDB. -/
def plainPe : PEView := ⟨none, none, [], 500, 600, false⟩

/-- A 64-byte DBI stream: exactly the DBI header, declaring
`gp_modi_size = 4` (at header offset 24) and zero everywhere else. It
is too short to hold the header plus a 4-byte module info substream. -/
def dbiShortStream : List Nat :=
  List.replicate 24 0 ++ [4, 0, 0, 0] ++ List.replicate 36 0
end ZapTimestamp

namespace ZapTimestamp

/-- C3 (counterexample): the constant the constructor writes is the
decimal 1262304000, whose hexadecimal form is 0x4B3D3B00; the claim's
4-byte value 0x4B3D8200 is a different number (1262322176), so the
patched timestamp is not 0x4B3D8200. -/
theorem timestamp_data_ne_claimed_hex :
    timestamp_data_ = 1262304000 ∧ (0x4B3D8200 : Nat) = 1262322176 ∧
    timestamp_data_ ≠ 0x4B3D8200 := by
  refine ⟨rfl, by norm_num, by decide⟩

/-- C3 (amended): the constant timestamp is the fixed 4-byte value
0x4B3D3B00, i.e. 1,262,304,000 seconds since the Unix epoch — forty
365-day years plus ten leap days (1972..2008) of 86400 seconds, which is
Jan 1, 2010 00:00:00 UTC — and it is not zero. Its little-endian bytes
are what every timestamp patch entry carries. -/
theorem timestamp_data_value :
    timestamp_data_ = 0x4B3D3B00 ∧ timestamp_data_ = 1262304000 ∧
    timestamp_data_ = (40 * 365 + 10) * 86400 ∧ timestamp_data_ ≠ 0 ∧
    le32 timestamp_data_ = [0x00, 0x3B, 0x3D, 0x4B] := by
  refine ⟨by norm_num [timestamp_data_], rfl, by norm_num [timestamp_data_], by decide, by decide⟩

/-- C4: a patch entry of size 2 whose `fwrite` stores only 1 byte (the
`written` oracle) is merely logged: `UpdateFileInPlace` still applies
the remaining entries and reports success, returning the partially
patched file instead of failing. -/
theorem update_file_in_place_short_write_succeeds :
    UpdateFileInPlace (fun _ => true) (fun _ => 1) [10, 20, 30, 40]
      [⟨0, 2, some [1, 2], PatchTag.peTimestamp⟩] = some [1, 20, 30, 40] := by
  rfl

/-- C9: when the `fseek` skipping the marked range `[2, 4)` fails (index
0 of `failedSeeks`), `CalculatePdbGuid` only logs: it still returns a
digest — computed from the wrong bytes `[1, 2, 3, 4]` rather than the
uncovered bytes `[1, 2, 5, 6]` — instead of aborting with a failure. -/
theorem calculate_pdb_guid_ignores_seek_failure :
    CalculatePdbGuid (fun l => l) [0] [1, 2, 3, 4, 5, 6] [(2, 2)] = some [1, 2, 3, 4] ∧
    uncoveredBytes [1, 2, 3, 4, 5, 6] [(2, 2)] = [1, 2, 5, 6] := by
  exact ⟨rfl, rfl⟩

/-- C8: `dbiShortStream` (64 bytes, `gp_modi_size = 4`) passes every
length check of `NormalizeDbiStream` — it is not shorter than the DBI
header and not shorter than `gp_modi_size` — yet it is too short to hold
the header followed by the module info substream, and instead of the
"invalid DBI" rejection the module-info walk accesses the buffer out of
bounds. -/
theorem normalize_dbi_oob_despite_checks :
    dbiShortStream.length = 64 ∧
    ¬ dbiShortStream.length < dbiHeaderSize ∧
    readU32 dbiShortStream gpModiSizeOffset = some 4 ∧
    dbiShortStream.length < dbiHeaderSize + 4 ∧
    NormalizeDbiStream 1 dbiShortStream = Except.error DbiErr.oob := by
  refine ⟨by decide, by decide, by decide, by decide, by rfl⟩

lemma markDataDirectoryTimestamps_tags {dir : Option DataDirView} {tag : PatchTag}
    {sp sp' : List PatchEntry} {ns : List PatchTag}
    (h : MarkDataDirectoryTimestamps dir tag sp = some (sp', ns)) :
    ∀ t ∈ ns, t = tag := by
  unfold MarkDataDirectoryTimestamps at h
  cases dir with
  | none =>
    simp only [Option.some.injEq, Prod.mk.injEq] at h
    rcases h with ⟨-, h2⟩
    subst h2
    simp
  | some d =>
    dsimp only at h
    by_cases h0 : d.timeDateStamp = 0
    · rw [if_pos h0] at h
      simp only [Option.some.injEq, Prod.mk.injEq] at h
      rcases h with ⟨-, h2⟩
      subst h2
      simp
    · rw [if_neg h0] at h
      cases hins : Insert sp (tsEntry d tag) with
      | none => rw [hins] at h; cases h
      | some sp1 =>
        rw [hins] at h
        simp only [Option.some.injEq, Prod.mk.injEq] at h
        rcases h with ⟨-, h2⟩
        subst h2
        simp

lemma markDebugEntries_tags :
    ∀ (l : List DebugEntryView) (i : Nat) (cv : Option CodeViewView)
      (sp sp' : List PatchEntry) (ns : List PatchTag) (cv' : Option CodeViewView),
      MarkDebugEntries l i cv sp = some (sp', ns, cv') →
      ∀ t ∈ ns, ∃ j, t = PatchTag.debugTs j := by
  intro l
  induction l with
  | nil =>
    intro i cv sp sp' ns cv' h t ht
    simp only [MarkDebugEntries, Option.some.injEq, Prod.mk.injEq] at h
    rcases h with ⟨-, h2, -⟩
    subst h2
    simp at ht
  | cons e rest ih =>
    intro i cv sp sp' ns cv' h t ht
    unfold MarkDebugEntries at h
    cases hins : Insert sp ⟨e.tsOffset, 4, some (le32 timestamp_data_), PatchTag.debugTs i⟩ with
    | none => rw [hins] at h; cases h
    | some sp1 =>
      rw [hins] at h
      dsimp only at h
      cases hcve : e.codeView with
      | none =>
        rw [hcve] at h
        dsimp only at h
        rcases Option.map_eq_some'.mp h with ⟨r, hr, heq⟩
        have h2 : ns = PatchTag.debugTs i :: r.2.1 := by
          have := congrArg Prod.snd heq
          exact (congrArg Prod.fst this).symm
        subst h2
        rcases List.mem_cons.mp ht with h3 | h3
        · exact ⟨i, h3⟩
        · exact ih (i + 1) cv sp1 r.1 r.2.1 r.2.2 (by rw [hr]) t h3
      | some c =>
        rw [hcve] at h
        dsimp only at h
        cases cv with
        | some _ => cases h
        | none =>
          dsimp only at h
          rcases Option.map_eq_some'.mp h with ⟨r, hr, heq⟩
          have h2 : ns = PatchTag.debugTs i :: r.2.1 := by
            have := congrArg Prod.snd heq
            exact (congrArg Prod.fst this).symm
          subst h2
          rcases List.mem_cons.mp ht with h3 | h3
          · exact ⟨i, h3⟩
          · exact ih (i + 1) (some c) sp1 r.1 r.2.1 r.2.2 (by rw [hr]) t h3

lemma markCvEntries_tags {hasPdb : Bool} {cv : Option CodeViewView} {guid : List Nat}
    {sp sp' : List PatchEntry} {ns : List PatchTag}
    (h : MarkCvEntries hasPdb cv guid sp = some (sp', ns)) :
    ∀ t ∈ ns, t = PatchTag.pdbAge ∨ t = PatchTag.pdbGuid := by
  unfold MarkCvEntries at h
  cases hasPdb with
  | false =>
    simp only [Bool.false_eq_true, if_false, Option.some.injEq, Prod.mk.injEq] at h
    rcases h with ⟨-, h2⟩
    subst h2
    simp
  | true =>
    simp only [if_true] at h
    cases cv with
    | none => cases h
    | some c =>
      dsimp only at h
      cases hins1 : Insert sp ⟨c.ageOffset, 4, some (le32 pdb_age_data_), PatchTag.pdbAge⟩ with
      | none => rw [hins1] at h; cases h
      | some sp1 =>
        rw [hins1] at h
        dsimp only at h
        cases hins2 : Insert sp1 ⟨c.guidOffset, 16, some guid, PatchTag.pdbGuid⟩ with
        | none => rw [hins2] at h; cases h
        | some sp2 =>
          rw [hins2] at h
          dsimp only at h
          simp only [Option.some.injEq, Prod.mk.injEq] at h
          rcases h with ⟨-, h2⟩
          subst h2
          intro t ht
          rcases List.mem_cons.mp ht with h3 | h3
          · exact Or.inl h3
          · simp at h3
            exact Or.inr h3

/-- C5 (counterexample): on a PE with export directory, resource
directory, one CodeView debug entry and a PDB, the recorded insertion
order ends with the PE FileHeader timestamp, not with the checksum
sentinel: the checksum entry is the second-to-last insertion, so it is
not the last entry inserted. -/
theorem checksum_not_inserted_last :
    (MarkPeFileRanges richPe (List.replicate 16 0) []).map (fun r => r.2) =
      some [PatchTag.exportTs, PatchTag.resourceTs, PatchTag.debugTs 0, PatchTag.pdbAge,
        PatchTag.pdbGuid, PatchTag.peChecksum, PatchTag.peTimestamp] ∧
    [PatchTag.exportTs, PatchTag.resourceTs, PatchTag.debugTs 0, PatchTag.pdbAge,
      PatchTag.pdbGuid, PatchTag.peChecksum, PatchTag.peTimestamp].getLast? ≠
      some PatchTag.peChecksum ∧
    PatchTag.peChecksum ∈ [PatchTag.exportTs, PatchTag.resourceTs, PatchTag.debugTs 0,
      PatchTag.pdbAge, PatchTag.pdbGuid, PatchTag.peChecksum,
      PatchTag.peTimestamp].dropLast := by
  refine ⟨rfl, by decide, by decide⟩

/-- C5 (amended): the checksum sentinel is inserted second-to-last,
after every data directory timestamp, debug directory timestamp, age
and GUID entry; the last entry inserted is the PE FileHeader timestamp
entry. -/
theorem mark_pe_file_ranges_checksum_penultimate
    (pe : PEView) (guid : List Nat) (sp sp' : List PatchEntry) (ord : List PatchTag)
    (h : MarkPeFileRanges pe guid sp = some (sp', ord)) :
    ord.getLast? = some PatchTag.peTimestamp ∧
    ord.dropLast.getLast? = some PatchTag.peChecksum ∧
    PatchTag.peChecksum ∉ ord.dropLast.dropLast ∧
    PatchTag.peTimestamp ∉ ord.dropLast := by
  unfold MarkPeFileRanges at h
  cases h1 : MarkDataDirectoryTimestamps pe.exportDir PatchTag.exportTs sp with
  | none => rw [h1] at h; cases h
  | some r1 =>
    rw [h1] at h
    obtain ⟨sp1, n1⟩ := r1
    dsimp only at h
    cases h2 : MarkDataDirectoryTimestamps pe.resourceDir PatchTag.resourceTs sp1 with
    | none => rw [h2] at h; cases h
    | some r2 =>
      rw [h2] at h
      obtain ⟨sp2, n2⟩ := r2
      dsimp only at h
      cases h3 : MarkDebugEntries pe.debugEntries 0 none sp2 with
      | none => rw [h3] at h; cases h
      | some r3 =>
        rw [h3] at h
        obtain ⟨sp3, n3, cv⟩ := r3
        dsimp only at h
        cases h4 : MarkCvEntries pe.hasPdb cv guid sp3 with
        | none => rw [h4] at h; cases h
        | some r4 =>
          rw [h4] at h
          obtain ⟨sp4, n4⟩ := r4
          dsimp only at h
          cases h5 : Insert sp4 ⟨pe.checksumOffset, 4, none, PatchTag.peChecksum⟩ with
          | none => rw [h5] at h; cases h
          | some sp5 =>
            rw [h5] at h
            dsimp only at h
            cases h6 : Insert sp5 ⟨pe.peTimestampOffset, 4, some (le32 timestamp_data_),
                PatchTag.peTimestamp⟩ with
            | none => rw [h6] at h; cases h
            | some sp6 =>
              rw [h6] at h
              dsimp only at h
              simp only [Option.some.injEq, Prod.mk.injEq] at h
              rcases h with ⟨-, hord⟩
              have hpre : ∀ t ∈ n1 ++ n2 ++ n3 ++ n4,
                  t ≠ PatchTag.peChecksum ∧ t ≠ PatchTag.peTimestamp := by
                intro t ht
                rcases List.mem_append.mp ht with ht' | ht'
                · rcases List.mem_append.mp ht' with ht'' | ht''
                  · rcases List.mem_append.mp ht'' with ht3 | ht3
                    · have := markDataDirectoryTimestamps_tags h1 t ht3
                      subst this
                      exact ⟨by decide, by decide⟩
                    · have := markDataDirectoryTimestamps_tags h2 t ht3
                      subst this
                      exact ⟨by decide, by decide⟩
                  · obtain ⟨j, hj⟩ := markDebugEntries_tags pe.debugEntries 0 none
                      sp2 sp3 n3 cv h3 t ht''
                    subst hj
                    exact ⟨by simp, by simp⟩
                · rcases markCvEntries_tags h4 t ht' with h' | h' <;> subst h' <;>
                    exact ⟨by decide, by decide⟩
              rw [← hord]
              have hsplit : n1 ++ n2 ++ n3 ++ n4 ++
                  [PatchTag.peChecksum, PatchTag.peTimestamp] =
                  ((n1 ++ n2 ++ n3 ++ n4) ++ [PatchTag.peChecksum]) ++
                    [PatchTag.peTimestamp] := by
                simp
              rw [hsplit]
              refine ⟨List.getLast?_concat _, ?_, ?_, ?_⟩
              · rw [List.dropLast_concat, List.getLast?_concat]
              · rw [List.dropLast_concat, List.dropLast_concat]
                intro hmem
                exact (hpre _ hmem).1 rfl
              · rw [List.dropLast_concat]
                intro hmem
                rcases List.mem_append.mp hmem with h' | h'
                · exact (hpre _ h').2 rfl
                · simp at h'

/-- Witness for the amended C5 theorem: a PE without optional directories
still ends its insertion order with the checksum sentinel followed by
the PE timestamp. -/
theorem mark_pe_file_ranges_checksum_penultimate_witness :
    [PatchTag.peChecksum, PatchTag.peTimestamp].getLast? = some PatchTag.peTimestamp ∧
    [PatchTag.peChecksum, PatchTag.peTimestamp].dropLast.getLast? = some PatchTag.peChecksum ∧
    PatchTag.peChecksum ∉ [PatchTag.peChecksum, PatchTag.peTimestamp].dropLast.dropLast ∧
    PatchTag.peTimestamp ∉ [PatchTag.peChecksum, PatchTag.peTimestamp].dropLast :=
  mark_pe_file_ranges_checksum_penultimate plainPe [] []
    [⟨500, 4, none, PatchTag.peChecksum⟩,
     ⟨600, 4, some (le32 timestamp_data_), PatchTag.peTimestamp⟩]
    [PatchTag.peChecksum, PatchTag.peTimestamp] rfl

lemma insert_countP (p : PatchEntry → Bool) :
    ∀ (sp : List PatchEntry) (e : PatchEntry) (sp' : List PatchEntry),
      Insert sp e = some sp' →
      sp'.countP p = sp.countP p + (if p e then 1 else 0) := by
  intro sp
  induction sp with
  | nil =>
    intro e sp' h
    unfold Insert at h
    by_cases hz : e.size = 0
    · rw [if_pos hz] at h; cases h
    · rw [if_neg hz] at h
      simp only [Option.some.injEq] at h
      subst h
      simp [List.countP_cons]
  | cons x xs ih =>
    intro e sp' h
    unfold Insert at h
    by_cases hz : e.size = 0
    · rw [if_pos hz] at h; cases h
    · rw [if_neg hz] at h
      by_cases h1 : e.start + e.size ≤ x.start
      · rw [if_pos h1] at h
        simp only [Option.some.injEq] at h
        subst h
        simp [List.countP_cons]
        try omega
      · rw [if_neg h1] at h
        by_cases hlo : x.start + x.size ≤ e.start
        · rw [if_pos hlo] at h
          rcases Option.map_eq_some'.mp h with ⟨t, ht, heq⟩
          subst heq
          have := ih e t ht
          simp [List.countP_cons, this]
          omega
        · rw [if_neg hlo] at h; cases h

/-- C6: for either data directory, `MarkDataDirectoryTimestamps`
succeeds and adds a timestamp patch entry exactly when the directory
exists and its current TimeDateStamp is non-zero (`wantsPatch`); when
the directory is absent (or its timestamp is zero) the patch space gains
no entry and scanning still succeeds. The hypothesis supplies the
range-disjointness that makes the insertion itself succeed. -/
theorem mark_data_directory_timestamps_iff (dir : Option DataDirView) (tag : PatchTag)
    (sp : List PatchEntry)
    (h : ∀ d, dir = some d → d.timeDateStamp ≠ 0 →
      (Insert sp (tsEntry d tag)).isSome = true) :
    (MarkDataDirectoryTimestamps dir tag sp).map (fun r => countTag r.1 tag) =
      some (countTag sp tag + if wantsPatch dir then 1 else 0) := by
  cases dir with
  | none => simp [MarkDataDirectoryTimestamps, wantsPatch]
  | some d =>
    by_cases h0 : d.timeDateStamp = 0
    · simp [MarkDataDirectoryTimestamps, wantsPatch, h0]
    · have hs := h d rfl h0
      obtain ⟨sp1, hins⟩ := Option.isSome_iff_exists.mp hs
      have hcount := insert_countP (fun e => decide (e.tag = tag)) sp (tsEntry d tag) sp1 hins
      have htag : (fun e => decide (e.tag = tag)) (tsEntry d tag) = true := by
        simp [tsEntry]
      rw [htag, if_pos rfl] at hcount
      have hw : wantsPatch (some d) = true := by
        simp [wantsPatch, h0]
      simp only [MarkDataDirectoryTimestamps, if_neg h0, hins, Option.map_some']
      rw [hw, if_pos rfl]
      simp [countTag, hcount]

/-- Witness for C6: a present export directory with a non-zero
timestamp gets exactly one new entry in an empty patch space. -/
theorem mark_data_directory_timestamps_iff_witness :
    (MarkDataDirectoryTimestamps (some ⟨100, 5⟩) PatchTag.exportTs []).map
        (fun r => countTag r.1 PatchTag.exportTs) =
      some (countTag [] PatchTag.exportTs +
        if wantsPatch (some ⟨100, 5⟩) then 1 else 0) :=
  mark_data_directory_timestamps_iff (some ⟨100, 5⟩) PatchTag.exportTs []
    (fun d hd _ => by cases hd; rfl)

lemma zeroFrom_eq : ∀ (l : List Nat) (t : Nat),
    ZeroFrom l t = l.take t ++ List.replicate (l.length - t) 0 := by
  intro l
  induction l with
  | nil => intro t; simp [ZeroFrom]
  | cons b bs ih =>
    intro t
    cases t with
    | zero => simp [ZeroFrom, ih 0, List.replicate_succ]
    | succ t => simp [ZeroFrom, ih t]

lemma zeroFrom_length (l : List Nat) (t : Nat) : (ZeroFrom l t).length = l.length := by
  rw [zeroFrom_eq]
  simp
  omega

lemma zeroFrom_get?_ge (l : List Nat) (t i : Nat) (h1 : t ≤ i) (h2 : i < l.length) :
    (ZeroFrom l t).get? i = some 0 := by
  rw [zeroFrom_eq]
  have hlt : (l.take t).length = t := by
    simp
    omega
  rw [List.get?_append_right (by omega)]
  rw [hlt, List.get?_eq_getElem?, List.getElem?_replicate, if_pos (by omega)]

lemma findNulTail_succ (f : Nat) (rec : List Nat) (t : Nat) :
    FindNulTail (f + 1) rec t =
      if t + 1 < rec.length ∧ rec.getD t 0 ≠ 0 then FindNulTail f rec (t + 1) else t := rfl

lemma findNulTail_stop (f : Nat) (rec : List Nat) (t : Nat)
    (h : ¬ (t + 1 < rec.length ∧ rec.getD t 0 ≠ 0)) : FindNulTail f rec t = t := by
  cases f with
  | zero => rfl
  | succ f => rw [findNulTail_succ, if_neg h]

lemma findNulTail_le : ∀ (fuel : Nat) (rec : List Nat) (t : Nat),
    t ≤ rec.length - 1 → FindNulTail fuel rec t ≤ rec.length - 1 := by
  intro fuel
  induction fuel with
  | zero => intro rec t h; exact h
  | succ f ih =>
    intro rec t h
    rw [findNulTail_succ]
    by_cases hc : t + 1 < rec.length ∧ rec.getD t 0 ≠ 0
    · rw [if_pos hc]
      exact ih rec (t + 1) (by omega)
    · rw [if_neg hc]
      exact h

lemma symRecWalk_cons (f b0 b1 : Nat) (rest : List Nat) :
    SymRecWalk (f + 1) (b0 :: b1 :: rest) =
      (if 2 ≤ b0 + 256 * b1 ∧ (b0 + 256 * b1 + 2) % 4 = 0 ∧ b0 + 256 * b1 ≤ rest.length then
        match SymRecWalk f (rest.drop (b0 + 256 * b1)) with
        | none => none
        | some tl =>
          some (ZeroFrom (b0 :: b1 :: rest.take (b0 + 256 * b1))
            (FindNulTail (b0 :: b1 :: rest.take (b0 + 256 * b1)).length
              (b0 :: b1 :: rest.take (b0 + 256 * b1))
              ((b0 :: b1 :: rest.take (b0 + 256 * b1)).length - 3)) ++ tl)
      else none) := rfl

lemma symRecWalk_fuel : ∀ (f : Nat) (s : List Nat) (g : Nat),
    s.length < f → s.length < g → SymRecWalk f s = SymRecWalk g s := by
  intro f
  induction f with
  | zero => intro s g h _; omega
  | succ f ih =>
    intro s g hf hg
    cases s with
    | nil => cases g with | zero => simp at hg | succ g => rfl
    | cons b0 s' =>
      cases s' with
      | nil => cases g with | zero => simp at hg | succ g => rfl
      | cons b1 rest =>
        cases g with
        | zero => simp at hg
        | succ g =>
          rw [symRecWalk_cons, symRecWalk_cons]
          by_cases hc : 2 ≤ b0 + 256 * b1 ∧ (b0 + 256 * b1 + 2) % 4 = 0 ∧
              b0 + 256 * b1 ≤ rest.length
          · rw [if_pos hc, if_pos hc]
            have hlen : (rest.drop (b0 + 256 * b1)).length < f := by
              simp only [List.length_cons] at hf
              simp only [List.length_drop]
              omega
            have hlen' : (rest.drop (b0 + 256 * b1)).length < g := by
              simp only [List.length_cons] at hg
              simp only [List.length_drop]
              omega
            rw [ih (rest.drop (b0 + 256 * b1)) g hlen hlen']
          · rw [if_neg hc, if_neg hc]

lemma findNulTail_window (b0 b1 : Nat) (body : List Nat) (j : Nat)
    (h3 : 3 ≤ body.length) (hjlo : body.length - 3 ≤ j) (hjhi : j < body.length)
    (hnul : body.get? j = some 0)
    (hfirst : ∀ i, body.length - 3 ≤ i → i < j → body.get? i ≠ some 0) :
    FindNulTail ((b0 :: b1 :: body).length) (b0 :: b1 :: body)
      ((b0 :: b1 :: body).length - 3) = j + 2 := by
  have hgetD : ∀ k, (b0 :: b1 :: body).getD (k + 2) 0 = body.getD k 0 := by
    intro k
    simp
  have hlen : (b0 :: b1 :: body).length = body.length + 2 := by simp
  rw [hlen]
  have hstart : body.length + 2 - 3 = body.length - 1 := by omega
  rw [hstart]
  have hj : j = body.length - 3 ∨ j = body.length - 2 ∨ j = body.length - 1 := by omega
  have hav : ∀ k, k < body.length → ∃ v, body.get? k = some v := by
    intro k hk
    cases hv : body.get? k with
    | none =>
      rw [List.get?_eq_none] at hv
      omega
    | some v => exact ⟨v, rfl⟩
  have hunfold1 : body.length + 2 = (body.length + 1) + 1 := rfl
  rw [hunfold1, findNulTail_succ]
  have hidx1 : body.length - 1 = (body.length - 3) + 2 := by omega
  rcases hj with hj | hj | hj
  · -- the NUL is the first byte of the window
    have hz : (b0 :: b1 :: body).getD (body.length - 1) 0 = 0 := by
      rw [hidx1, hgetD, List.getD_eq_get?, ← hj, hnul]
      rfl
    rw [if_neg (by
      intro hc
      exact hc.2 hz)]
    omega
  · -- the NUL is the middle byte of the window
    obtain ⟨v, hv⟩ := hav (body.length - 3) (by omega)
    have hvne : v ≠ 0 := by
      intro h0
      exact hfirst (body.length - 3) (by omega) (by omega) (h0 ▸ hv)
    have hnz : (b0 :: b1 :: body).getD (body.length - 1) 0 = v := by
      rw [hidx1, hgetD, List.getD_eq_get?, hv]
      rfl
    rw [if_pos ⟨by simp; omega, by rw [hnz]; exact hvne⟩]
    have hunfold2 : body.length + 1 = body.length + 0 + 1 := rfl
    rw [hunfold2, findNulTail_succ]
    have hidx2 : body.length - 1 + 1 = (body.length - 2) + 2 := by omega
    have hz : (b0 :: b1 :: body).getD (body.length - 1 + 1) 0 = 0 := by
      rw [hidx2, hgetD, List.getD_eq_get?, ← hj, hnul]
      rfl
    rw [if_neg (by
      intro hc
      exact hc.2 hz)]
    omega
  · -- no NUL before the final byte: the scan stops at the end
    obtain ⟨v, hv⟩ := hav (body.length - 3) (by omega)
    have hvne : v ≠ 0 := by
      intro h0
      exact hfirst (body.length - 3) (by omega) (by omega) (h0 ▸ hv)
    have hnz : (b0 :: b1 :: body).getD (body.length - 1) 0 = v := by
      rw [hidx1, hgetD, List.getD_eq_get?, hv]
      rfl
    rw [if_pos ⟨by simp; omega, by rw [hnz]; exact hvne⟩]
    obtain ⟨w, hw⟩ := hav (body.length - 2) (by omega)
    have hwne : w ≠ 0 := by
      intro h0
      exact hfirst (body.length - 2) (by omega) (by omega) (h0 ▸ hw)
    have hunfold2 : body.length + 1 = body.length + 0 + 1 := rfl
    rw [hunfold2, findNulTail_succ]
    have hidx2 : body.length - 1 + 1 = (body.length - 2) + 2 := by omega
    have hnz2 : (b0 :: b1 :: body).getD (body.length - 1 + 1) 0 = w := by
      rw [hidx2, hgetD, List.getD_eq_get?, hw]
      rfl
    rw [if_pos ⟨by simp; omega, by rw [hnz2]; exact hwne⟩]
    rw [findNulTail_stop _ _ _ (by
      intro hc
      have := hc.1
      simp only [List.length_cons] at this
      omega)]
    omega

/-- C7: a symbol record whose tail window (the last three bytes of the
record body, where the padding can start) contains a NUL has the first
such NUL treated as the name terminator: every byte after it up to the
end of the record is overwritten with 0 (the terminator itself is
rewritten to the 0 it already holds), and the name and everything before
it is unchanged; the rest of the stream is normalized independently. -/
theorem sym_rec_zeroes_after_tail_nul
    (b0 b1 : Nat) (body rest out : List Nat) (j : Nat)
    (hsize : b0 + 256 * b1 = body.length)
    (h4 : (body.length + 2) % 4 = 0) (h3 : 3 ≤ body.length)
    (hjlo : body.length - 3 ≤ j) (hjhi : j < body.length)
    (hnul : body.get? j = some 0)
    (hfirst : ∀ i, body.length - 3 ≤ i → i < j → body.get? i ≠ some 0)
    (hrest : NormalizeSymbolRecordStream rest = some out) :
    NormalizeSymbolRecordStream (b0 :: b1 :: (body ++ rest)) =
      some (b0 :: b1 :: (body.take j ++ List.replicate (body.length - j) 0 ++ out)) := by
  unfold NormalizeSymbolRecordStream at hrest ⊢
  have hL : (b0 :: b1 :: (body ++ rest)).length = body.length + rest.length + 2 := by
    simp
  rw [symRecWalk_cons, hsize]
  rw [if_pos ⟨by omega, h4, by simp⟩]
  rw [List.take_left' rfl, List.drop_left' rfl]
  have hfuel : SymRecWalk (b0 :: b1 :: (body ++ rest)).length rest = some out := by
    rw [symRecWalk_fuel (b0 :: b1 :: (body ++ rest)).length rest (rest.length + 1)
      (by rw [hL]; omega) (by omega)]
    exact hrest
  rw [hfuel]
  rw [findNulTail_window b0 b1 body j h3 hjlo hjhi hnul hfirst]
  have hzf : ZeroFrom (b0 :: b1 :: body) (j + 2) = b0 :: b1 :: ZeroFrom body j := rfl
  rw [hzf, zeroFrom_eq]
  simp

/-- Witness for C7: the spec scenario of a 12-byte record (u16 size
field 10) whose body ends in 'f' 'o' 'o' NUL junk junk; after
normalization the record ends in 'f' 'o' 'o' 0 0 0 and the prefix is
unchanged. -/
theorem sym_rec_zeroes_after_tail_nul_witness :
    NormalizeSymbolRecordStream [10, 0, 1, 1, 1, 1, 102, 111, 111, 0, 88, 88] =
      some (10 :: 0 :: ([1, 1, 1, 1, 102, 111, 111, 0, 88, 88].take 7 ++
        List.replicate ([1, 1, 1, 1, 102, 111, 111, 0, 88, 88].length - 7) 0 ++ [])) :=
  sym_rec_zeroes_after_tail_nul 10 0 [1, 1, 1, 1, 102, 111, 111, 0, 88, 88] [] [] 7
    rfl (by decide) (by decide) (by decide) (by decide) rfl
    (fun i h1 h2 => absurd (Nat.lt_of_le_of_lt h1 h2) (by decide)) rfl

/-- C10: for every well-formed record of the symbol record stream, the
final byte of the record body is zero after normalization, whatever the
record's last three bytes contain: the `tail` scan stops at `end - 1` at
the latest and the zeroing loop always reaches the final byte. -/
theorem sym_rec_last_byte_zeroed (b0 b1 : Nat) (body rest out : List Nat)
    (hsize : b0 + 256 * b1 = body.length)
    (h2 : 2 ≤ body.length) (h4 : (body.length + 2) % 4 = 0)
    (hrest : NormalizeSymbolRecordStream rest = some out) :
    (NormalizeSymbolRecordStream (b0 :: b1 :: (body ++ rest))).map
      (fun l => l.get? (body.length + 1)) = some (some 0) := by
  unfold NormalizeSymbolRecordStream at hrest ⊢
  have hL : (b0 :: b1 :: (body ++ rest)).length = body.length + rest.length + 2 := by
    simp
  rw [symRecWalk_cons, hsize]
  rw [if_pos ⟨h2, h4, by simp⟩]
  rw [List.take_left' rfl, List.drop_left' rfl]
  have hfuel : SymRecWalk (b0 :: b1 :: (body ++ rest)).length rest = some out := by
    rw [symRecWalk_fuel (b0 :: b1 :: (body ++ rest)).length rest (rest.length + 1)
      (by rw [hL]; omega) (by omega)]
    exact hrest
  rw [hfuel]
  simp only [Option.map_some']
  have hreclen : (b0 :: b1 :: body).length = body.length + 2 := by simp
  have ht := findNulTail_le ((b0 :: b1 :: body).length) (b0 :: b1 :: body)
    ((b0 :: b1 :: body).length - 3) (by omega)
  rw [List.get?_append (by rw [zeroFrom_length]; omega)]
  rw [zeroFrom_get?_ge _ _ _ (by omega) (by omega)]

/-- Witness for C10: a record whose last three bytes hold no NUL at all
still gets its final byte zeroed. -/
theorem sym_rec_last_byte_zeroed_witness :
    (NormalizeSymbolRecordStream [6, 0, 1, 2, 3, 4, 5, 6]).map
      (fun l => l.get? ([1, 2, 3, 4, 5, 6].length + 1)) = some (some 0) :=
  sym_rec_last_byte_zeroed 6 0 [1, 2, 3, 4, 5, 6] [] []
    rfl (by decide) (by decide) rfl

lemma md5Consume_succ (f : Nat) (file : List Nat) (bytes cur pos : Nat) (ctx : List Nat) :
    Md5Consume (f + 1) file bytes cur pos ctx =
      (if cur < bytes then
        (if ((file.drop pos).take (min (bytes - cur) 4096)).length = min (bytes - cur) 4096 then
          Md5Consume f file bytes (cur + min (bytes - cur) 4096)
            (pos + min (bytes - cur) 4096)
            (ctx ++ (file.drop pos).take (min (bytes - cur) 4096))
        else none)
      else some (ctx, pos)) := rfl

lemma md5Consume_spec (file : List Nat) :
    ∀ (f bytes cur pos : Nat) (ctx : List Nat),
      bytes - cur < f → pos + (bytes - cur) ≤ file.length →
      Md5Consume f file bytes cur pos ctx =
        some (ctx ++ (file.drop pos).take (bytes - cur), pos + (bytes - cur)) := by
  intro f
  induction f with
  | zero => intro bytes cur pos ctx h _; omega
  | succ f ih =>
    intro bytes cur pos ctx hf hpos
    rw [md5Consume_succ]
    by_cases hcur : cur < bytes
    · rw [if_pos hcur]
      have hchunk : ((file.drop pos).take (min (bytes - cur) 4096)).length =
          min (bytes - cur) 4096 := by
        simp only [List.length_take, List.length_drop]
        omega
      rw [if_pos hchunk]
      rw [ih bytes (cur + min (bytes - cur) 4096) (pos + min (bytes - cur) 4096)
        (ctx ++ (file.drop pos).take (min (bytes - cur) 4096)) (by omega) (by omega)]
      have harith : bytes - cur = min (bytes - cur) 4096 +
          (bytes - (cur + min (bytes - cur) 4096)) := by omega
      simp only [Option.some.injEq, Prod.mk.injEq]
      constructor
      · conv_rhs => rw [harith]
        rw [List.take_add, List.drop_drop]
        simp [List.append_assoc]
      · omega
    · rw [if_neg hcur]
      have h0 : bytes - cur = 0 := by omega
      rw [h0]
      simp

lemma md5ConsumeRun_spec (file : List Nat) (bytes pos : Nat) (ctx : List Nat)
    (h : pos + bytes ≤ file.length) :
    Md5ConsumeRun file bytes pos ctx =
      some (ctx ++ (file.drop pos).take bytes, pos + bytes) := by
  unfold Md5ConsumeRun
  have := md5Consume_spec file (bytes + 1) bytes 0 pos ctx (by omega) (by omega)
  simpa using this

lemma filterMap_get?_range' (file : List Nat) :
    ∀ (n a : Nat), a + n ≤ file.length →
      (List.range' a n).filterMap (fun j => file.get? j) = (file.drop a).take n := by
  intro n
  induction n with
  | zero => intro a _; simp
  | succ n ih =>
    intro a h
    rw [List.range'_succ]
    have ha : a < file.length := by omega
    have hget : file.get? a = some file[a] := by
      rw [List.get?_eq_getElem?]
      exact List.getElem?_eq_getElem ha
    rw [List.filterMap_cons_some hget]
    rw [ih (a + 1) (by omega)]
    rw [List.drop_eq_getElem_cons ha]
    rw [List.take_succ_cons]

lemma chainOk_cons {len cur s n : Nat} {rest : List (Nat × Nat)} :
    chainOk len cur ((s, n) :: rest) = true ↔
      cur ≤ s ∧ s + n ≤ len ∧ chainOk len (s + n) rest = true := by
  simp [chainOk, Bool.and_eq_true, decide_eq_true_eq, and_assoc]

lemma chainOk_not_covered : ∀ (ranges : List (Nat × Nat)) (len c j : Nat),
    chainOk len c ranges = true → j < c → coveredBy ranges j = false := by
  intro ranges
  induction ranges with
  | nil => intro len c j _ _; rfl
  | cons r rest ih =>
    obtain ⟨s, n⟩ := r
    intro len c j hok hj
    rw [chainOk_cons] at hok
    simp only [coveredBy, List.any_cons, Bool.or_eq_false_iff]
    constructor
    · have hns : ¬ s ≤ j := by omega
      simp [hns]
    · have := ih len (s + n) j hok.2.2 (by omega)
      simpa [coveredBy] using this

lemma calcGuidLoop_spec (file : List Nat) :
    ∀ (ranges : List (Nat × Nat)) (i cur : Nat) (ctx : List Nat),
      chainOk file.length cur ranges = true → cur ≤ file.length →
      CalcGuidLoop file [] i ranges cur cur ctx =
        some (ctx ++ ((List.range' cur (file.length - cur)).filter
          (fun j => !coveredBy ranges j)).filterMap (fun j => file.get? j)) := by
  intro ranges
  induction ranges with
  | nil =>
    intro i cur ctx _ hcur
    unfold CalcGuidLoop
    by_cases h : cur < file.length
    · rw [if_pos h]
      rw [md5ConsumeRun_spec file (file.length - cur) cur ctx (by omega)]
      have hfilter : (List.range' cur (file.length - cur)).filter
          (fun j => !coveredBy ([] : List (Nat × Nat)) j) =
          List.range' cur (file.length - cur) := by
        apply List.filter_eq_self.mpr
        intro a _
        simp [coveredBy]
      rw [hfilter, filterMap_get?_range' file (file.length - cur) cur (by omega)]
    · rw [if_neg h]
      have h0 : file.length - cur = 0 := by omega
      rw [h0]
      simp
  | cons r rest ih =>
    obtain ⟨s, n⟩ := r
    intro i cur ctx hok hcur
    rw [chainOk_cons] at hok
    obtain ⟨hcs, hsl, hrest⟩ := hok
    unfold CalcGuidLoop
    have hconsume : (if cur < s then Md5ConsumeRun file (s - cur) cur ctx
        else some (ctx, cur)) =
        some (ctx ++ (file.drop cur).take (s - cur), s) := by
      by_cases hlt : cur < s
      · rw [if_pos hlt, md5ConsumeRun_spec file (s - cur) cur ctx (by omega)]
        rw [show cur + (s - cur) = s from by omega]
      · rw [if_neg hlt]
        have hseq : s = cur := by omega
        subst hseq
        simp
    rw [hconsume]
    dsimp only
    rw [if_neg (by simp)]
    rw [ih (i + 1) (s + n) (ctx ++ (file.drop cur).take (s - cur)) hrest (by omega)]
    have hcount : file.length - cur = (file.length - (s + n) + n) + (s - cur) := by
      omega
    rw [hcount, ← List.range'_append_1, show cur + (s - cur) = s from by omega,
      ← List.range'_append_1]
    rw [List.filter_append, List.filter_append, List.filterMap_append,
      List.filterMap_append]
    have hseg1 : (List.range' cur (s - cur)).filter
        (fun j => !coveredBy ((s, n) :: rest) j) = List.range' cur (s - cur) := by
      apply List.filter_eq_self.mpr
      intro a ha
      rw [List.mem_range'_1] at ha
      have hhead : (decide (s ≤ a) && decide (a < s + n)) = false := by
        have hns : ¬ s ≤ a := by omega
        simp [hns]
      have htail := chainOk_not_covered rest file.length (s + n) a hrest (by omega)
      simp only [coveredBy, List.any_cons] at *
      simp [hhead, htail]
    have hseg2 : (List.range' s n).filter
        (fun j => !coveredBy ((s, n) :: rest) j) = [] := by
      rw [List.filter_eq_nil]
      intro a ha
      rw [List.mem_range'_1] at ha
      have hc : coveredBy ((s, n) :: rest) a = true := by
        simp only [coveredBy, List.any_cons, Bool.or_eq_true]
        left
        simp only [Bool.and_eq_true, decide_eq_true_eq]
        omega
      simp [hc]
    have hseg3 : (List.range' (s + n) (file.length - (s + n))).filter
        (fun j => !coveredBy ((s, n) :: rest) j) =
        (List.range' (s + n) (file.length - (s + n))).filter
          (fun j => !coveredBy rest j) := by
      apply List.filter_congr
      intro a ha
      rw [List.mem_range'_1] at ha
      have hhead : (decide (s ≤ a) && decide (a < s + n)) = false := by
        have hna : ¬ a < s + n := by omega
        simp [hna]
      simp only [coveredBy, List.any_cons, hhead, Bool.false_or]
    rw [hseg1, hseg2, hseg3]
    rw [filterMap_get?_range' file (s - cur) cur (by omega)]
    simp [List.append_assoc]

/-- C1: for every abstract MD5 function, every file, and every
well-formed range iteration of the patch space (sorted, disjoint, inside
the file) with no failing seek, `CalculatePdbGuid` succeeds and its
digest is the MD5 of exactly the bytes of the file not covered by any
range, concatenated in ascending file-offset order; and the digest is
stored into the data of the "PDB GUID" patch entry (whose data pointer
aliases `pdb_guid_data_`). -/
theorem calculate_pdb_guid_md5_of_uncovered
    (md5 : List Nat → List Nat) (file : List Nat) (ranges : List (Nat × Nat))
    (sp : List PatchEntry) (e : PatchEntry)
    (hok : chainOk file.length 0 ranges = true)
    (he : e ∈ updateGuidData sp (md5 (uncoveredBytes file ranges)))
    (hg : e.tag = PatchTag.pdbGuid) :
    CalculatePdbGuid md5 [] file ranges = some (md5 (uncoveredBytes file ranges)) ∧
    e.data = some (md5 (uncoveredBytes file ranges)) := by
  constructor
  · unfold CalculatePdbGuid
    rw [calcGuidLoop_spec file ranges 0 0 [] hok (by omega)]
    unfold uncoveredBytes
    rw [List.range_eq_range']
    simp
  · unfold updateGuidData at he
    rcases List.mem_map.mp he with ⟨x, hx, hxe⟩
    by_cases hxt : x.tag = PatchTag.pdbGuid
    · rw [if_pos hxt] at hxe
      rw [← hxe]
    · rw [if_neg hxt] at hxe
      rw [← hxe] at hg
      exact absurd hg hxt

/-- Witness for C1: the identity as the abstract hash, a five-byte file
and the single range [1, 3): the digest is the uncovered byte stream
[1, 4, 5], and the updated GUID entry carries it. -/
theorem calculate_pdb_guid_md5_of_uncovered_witness :
    CalculatePdbGuid (fun l => l) [] [1, 2, 3, 4, 5] [(1, 2)] =
      some ((fun l => l) (uncoveredBytes [1, 2, 3, 4, 5] [(1, 2)])) ∧
    (⟨10, 16, some ((fun l => l) (uncoveredBytes [1, 2, 3, 4, 5] [(1, 2)])),
      PatchTag.pdbGuid⟩ : PatchEntry).data =
      some ((fun l => l) (uncoveredBytes [1, 2, 3, 4, 5] [(1, 2)])) :=
  calculate_pdb_guid_md5_of_uncovered (fun l => l) [1, 2, 3, 4, 5] [(1, 2)]
    [⟨10, 16, none, PatchTag.pdbGuid⟩]
    ⟨10, 16, some ((fun l => l) (uncoveredBytes [1, 2, 3, 4, 5] [(1, 2)])),
      PatchTag.pdbGuid⟩
    (by decide) (by decide) rfl

lemma setBytes_eq {s : List Nat} {p : Nat} {bs s' : List Nat}
    (h : setBytes s p bs = some s') :
    p + bs.length ≤ s.length ∧ s' = s.take p ++ (bs ++ s.drop (p + bs.length)) := by
  unfold setBytes at h
  by_cases hle : p + bs.length ≤ s.length
  · rw [if_pos hle] at h
    simp only [Option.some.injEq] at h
    subst h
    exact ⟨hle, by simp [List.append_assoc]⟩
  · rw [if_neg hle] at h; cases h

lemma setBytes_length {s : List Nat} {p : Nat} {bs s' : List Nat}
    (h : setBytes s p bs = some s') : s'.length = s.length := by
  obtain ⟨hle, heq⟩ := setBytes_eq h
  subst heq
  simp
  omega

lemma setBytes_get? {s : List Nat} {p : Nat} {bs s' : List Nat}
    (h : setBytes s p bs = some s') (i : Nat) :
    s'.get? i = if p ≤ i ∧ i < p + bs.length then bs.get? (i - p) else s.get? i := by
  obtain ⟨hle, heq⟩ := setBytes_eq h
  subst heq
  have htl : (s.take p).length = p := by
    simp
    omega
  by_cases h1 : i < p
  · rw [if_neg (by omega)]
    rw [List.get?_append (by omega)]
    exact List.get?_take h1
  · rw [List.get?_append_right (by omega), htl]
    by_cases h2 : i < p + bs.length
    · rw [if_pos ⟨by omega, h2⟩]
      rw [List.get?_append (by omega)]
    · rw [if_neg (by omega)]
      rw [List.get?_append_right (by omega)]
      rw [List.get?_drop]
      congr 1
      omega

lemma scanNul_ge : ∀ (f : Nat) (s : List Nat) (p q : Nat),
    ScanNul f s p = some q → p ≤ q := by
  intro f
  induction f with
  | zero => intro s p q h; cases h
  | succ f ih =>
    intro s p q h
    unfold ScanNul at h
    cases hg : s.get? p with
    | none => rw [hg] at h; cases h
    | some v =>
      rw [hg] at h
      cases v with
      | zero =>
        simp only [Option.some.injEq] at h
        omega
      | succ v =>
        have := ih s (p + 1) q h
        omega

lemma modiWalk_succ (f : Nat) (s : List Nat) (p endP : Nat) :
    ModiWalk (f + 1) s p endP =
      (if p < endP then
        match setBytes s (p + dbiOffsetsFieldOffset) (le32 0) with
        | none => Except.error DbiErr.oob
        | some s1 =>
          match ScanNul (s1.length + 1) s1 (p + dbiModuleInfoBaseSize) with
          | none => Except.error DbiErr.oob
          | some q1 =>
            match ScanNul (s1.length + 1) s1 (q1 + 1) with
            | none => Except.error DbiErr.oob
            | some q2 => ModiWalk f s1 ((q2 + 1 + 3) / 4 * 4) endP
      else Except.ok (s, p)) := rfl

lemma modiWalk_preserve : ∀ (fuel : Nat) (s : List Nat) (p endP : Nat)
    (s' : List Nat) (q : Nat),
    ModiWalk fuel s p endP = Except.ok (s', q) → dbiHeaderSize ≤ p →
    p ≤ q ∧ s'.length = s.length ∧
      ∀ i, i < dbiHeaderSize → s'.get? i = s.get? i := by
  intro fuel
  induction fuel with
  | zero => intro s p endP s' q h _; cases h
  | succ f ih =>
    intro s p endP s' q h hp
    rw [modiWalk_succ] at h
    by_cases hlt : p < endP
    · rw [if_pos hlt] at h
      cases hset : setBytes s (p + dbiOffsetsFieldOffset) (le32 0) with
      | none => rw [hset] at h; cases h
      | some s1 =>
        rw [hset] at h
        dsimp only at h
        cases hn1 : ScanNul (s1.length + 1) s1 (p + dbiModuleInfoBaseSize) with
        | none => rw [hn1] at h; cases h
        | some q1 =>
          rw [hn1] at h
          dsimp only at h
          cases hn2 : ScanNul (s1.length + 1) s1 (q1 + 1) with
          | none => rw [hn2] at h; cases h
          | some q2 =>
            rw [hn2] at h
            dsimp only at h
            have hq1 := scanNul_ge _ _ _ _ hn1
            have hq2 := scanNul_ge _ _ _ _ hn2
            have hhs : dbiHeaderSize = 64 := rfl
            have hmb : dbiModuleInfoBaseSize = 64 := rfl
            have hnext : dbiHeaderSize ≤ (q2 + 1 + 3) / 4 * 4 := by omega
            obtain ⟨hq, hlen, hpres⟩ := ih s1 ((q2 + 1 + 3) / 4 * 4) endP s' q h hnext
            refine ⟨by omega, by rw [hlen, setBytes_length hset], ?_⟩
            intro i hi
            rw [hpres i hi]
            rw [setBytes_get? hset i]
            rw [if_neg (by
              intro hc
              have hof : dbiOffsetsFieldOffset = 52 := rfl
              omega)]
    · rw [if_neg hlt] at h
      simp only [Except.ok.injEq, Prod.mk.injEq] at h
      obtain ⟨hs, hq⟩ := h
      subst hs
      subst hq
      exact ⟨Nat.le_refl _, rfl, fun i _ => rfl⟩

lemma contribWalk_succ (f : Nat) (s : List Nat) (p endP : Nat) :
    ContribWalk (f + 1) s p endP =
      (if p < endP then
        match setBytes s (p + dbiPad1Offset) [0, 0] with
        | none => Except.error DbiErr.oob
        | some s1 =>
          match setBytes s1 (p + dbiPad2Offset) [0, 0] with
          | none => Except.error DbiErr.oob
          | some s2 => ContribWalk f s2 (p + dbiSectionContribSize) endP
      else Except.ok s) := rfl

lemma contribWalk_preserve : ∀ (fuel : Nat) (s : List Nat) (p endP : Nat)
    (s' : List Nat),
    ContribWalk fuel s p endP = Except.ok s' → dbiHeaderSize ≤ p →
    s'.length = s.length ∧ ∀ i, i < dbiHeaderSize → s'.get? i = s.get? i := by
  intro fuel
  induction fuel with
  | zero => intro s p endP s' h _; cases h
  | succ f ih =>
    intro s p endP s' h hp
    rw [contribWalk_succ] at h
    by_cases hlt : p < endP
    · rw [if_pos hlt] at h
      cases hset1 : setBytes s (p + dbiPad1Offset) [0, 0] with
      | none => rw [hset1] at h; cases h
      | some s1 =>
        rw [hset1] at h
        dsimp only at h
        cases hset2 : setBytes s1 (p + dbiPad2Offset) [0, 0] with
        | none => rw [hset2] at h; cases h
        | some s2 =>
          rw [hset2] at h
          dsimp only at h
          have hhs : dbiHeaderSize = 64 := rfl
          have hsc : dbiSectionContribSize = 28 := rfl
          obtain ⟨hlen, hpres⟩ := ih s2 (p + dbiSectionContribSize) endP s' h (by omega)
          refine ⟨by rw [hlen, setBytes_length hset2, setBytes_length hset1], ?_⟩
          intro i hi
          rw [hpres i hi]
          rw [setBytes_get? hset2 i, if_neg (by
            intro hc
            have h2o : dbiPad2Offset = 26 := rfl
            omega)]
          rw [setBytes_get? hset1 i, if_neg (by
            intro hc
            have h1o : dbiPad1Offset = 2 := rfl
            omega)]
    · rw [if_neg hlt] at h
      simp only [Except.ok.injEq] at h
      subst h
      exact ⟨rfl, fun i _ => rfl⟩

lemma normalizeDbi_age {s s' : List Nat}
    (h : NormalizeDbiStream pdb_age_data_ s = Except.ok s') :
    readU32 s' dbiAgeOffset = some pdb_age_data_ := by
  unfold NormalizeDbiStream at h
  by_cases hlen : s.length < dbiHeaderSize
  · rw [if_pos hlen] at h; cases h
  · rw [if_neg hlen] at h
    cases hset : setBytes s dbiAgeOffset (le32 pdb_age_data_) with
    | none => rw [hset] at h; cases h
    | some s1 =>
      rw [hset] at h
      dsimp only at h
      cases hg1 : readU32 s1 gpModiSizeOffset with
      | none => rw [hg1] at h; cases h
      | some gp =>
        rw [hg1] at h
        cases hg2 : readU32 s1 sectionContribSizeOffset with
        | none => rw [hg2] at h; cases h
        | some sc =>
          rw [hg2] at h
          dsimp only at h
          by_cases hgl : s1.length < gp
          · rw [if_pos hgl] at h; cases h
          · rw [if_neg hgl] at h
            cases hmw : ModiWalk (s1.length + 1) s1 dbiHeaderSize (dbiHeaderSize + gp) with
            | error e => rw [hmw] at h; cases h
            | ok r =>
              rw [hmw] at h
              obtain ⟨s2, pfin⟩ := r
              dsimp only at h
              by_cases hcl : s2.length < gp + 4 + sc
              · rw [if_pos hcl] at h; cases h
              · rw [if_neg hcl] at h
                obtain ⟨hple, hlen2, hpres2⟩ := modiWalk_preserve _ _ _ _ _ _ hmw
                  (Nat.le_refl _)
                obtain ⟨hlen3, hpres3⟩ := contribWalk_preserve _ _ _ _ _ h (by
                  have hhs : dbiHeaderSize = 64 := rfl
                  omega)
                have hget : ∀ i, i < dbiHeaderSize → s'.get? i = s1.get? i := by
                  intro i hi
                  rw [hpres3 i hi, hpres2 i hi]
                have e0 : s'.get? dbiAgeOffset = some 1 := by
                  rw [hget dbiAgeOffset (by decide)]
                  rw [setBytes_get? hset dbiAgeOffset, if_pos (by decide)]
                  rfl
                have e1 : s'.get? (dbiAgeOffset + 1) = some 0 := by
                  rw [hget (dbiAgeOffset + 1) (by decide)]
                  rw [setBytes_get? hset (dbiAgeOffset + 1), if_pos (by decide)]
                  rfl
                have e2 : s'.get? (dbiAgeOffset + 2) = some 0 := by
                  rw [hget (dbiAgeOffset + 2) (by decide)]
                  rw [setBytes_get? hset (dbiAgeOffset + 2), if_pos (by decide)]
                  rfl
                have e3 : s'.get? (dbiAgeOffset + 3) = some 0 := by
                  rw [hget (dbiAgeOffset + 3) (by decide)]
                  rw [setBytes_get? hset (dbiAgeOffset + 3), if_pos (by decide)]
                  rfl
                unfold readU32
                rw [e0, e1, e2, e3]
                decide

lemma updatePdbHeader_age {guid hdr hdr' : List Nat}
    (h : UpdatePdbHeaderInfo guid hdr = some hdr') :
    readU32 hdr' pdbInfoAgeOffset = some pdb_age_data_ := by
  unfold UpdatePdbHeaderInfo at h
  cases hs1 : setBytes hdr pdbInfoTimestampOffset (le32 timestamp_data_) with
  | none => rw [hs1] at h; cases h
  | some s1 =>
    rw [hs1] at h
    dsimp only at h
    cases hs2 : setBytes s1 (pdbInfoTimestampOffset + 4) (le32 pdb_age_data_) with
    | none => rw [hs2] at h; cases h
    | some s2 =>
      rw [hs2] at h
      dsimp only at h
      have hpt : pdbInfoTimestampOffset = 4 := rfl
      have hguard : ∀ i, 8 ≤ i → i < 12 →
          ¬ (pdbInfoTimestampOffset + 8 ≤ i ∧ i < pdbInfoTimestampOffset + 8 + guid.length) := by
        intro i hi1 hi2 hc
        omega
      have e0 : hdr'.get? pdbInfoAgeOffset = some 1 := by
        rw [setBytes_get? h pdbInfoAgeOffset, if_neg (hguard _ (by decide) (by decide))]
        rw [setBytes_get? hs2 pdbInfoAgeOffset, if_pos (by decide)]
        rfl
      have e1 : hdr'.get? (pdbInfoAgeOffset + 1) = some 0 := by
        rw [setBytes_get? h (pdbInfoAgeOffset + 1), if_neg (hguard _ (by decide) (by decide))]
        rw [setBytes_get? hs2 (pdbInfoAgeOffset + 1), if_pos (by decide)]
        rfl
      have e2 : hdr'.get? (pdbInfoAgeOffset + 2) = some 0 := by
        rw [setBytes_get? h (pdbInfoAgeOffset + 2), if_neg (hguard _ (by decide) (by decide))]
        rw [setBytes_get? hs2 (pdbInfoAgeOffset + 2), if_pos (by decide)]
        rfl
      have e3 : hdr'.get? (pdbInfoAgeOffset + 3) = some 0 := by
        rw [setBytes_get? h (pdbInfoAgeOffset + 3), if_neg (hguard _ (by decide) (by decide))]
        rw [setBytes_get? hs2 (pdbInfoAgeOffset + 3), if_pos (by decide)]
        rfl
      unfold readU32
      rw [e0, e1, e2, e3]
      decide

lemma insert_mem : ∀ (sp : List PatchEntry) (e : PatchEntry) (sp' : List PatchEntry),
    Insert sp e = some sp' → ∀ x, x ∈ sp' ↔ x ∈ sp ∨ x = e := by
  intro sp
  induction sp with
  | nil =>
    intro e sp' h x
    unfold Insert at h
    by_cases hz : e.size = 0
    · rw [if_pos hz] at h; cases h
    · rw [if_neg hz] at h
      simp only [Option.some.injEq] at h
      subst h
      simp
  | cons y ys ih =>
    intro e sp' h x
    unfold Insert at h
    by_cases hz : e.size = 0
    · rw [if_pos hz] at h; cases h
    · rw [if_neg hz] at h
      by_cases h1 : e.start + e.size ≤ y.start
      · rw [if_pos h1] at h
        simp only [Option.some.injEq] at h
        subst h
        simp only [List.mem_cons]
        tauto
      · rw [if_neg h1] at h
        by_cases h2 : y.start + y.size ≤ e.start
        · rw [if_pos h2] at h
          rcases Option.map_eq_some'.mp h with ⟨t, ht, heq⟩
          subst heq
          simp only [List.mem_cons, ih e t ht x]
          tauto
        · rw [if_neg h2] at h; cases h

lemma markDataDirectoryTimestamps_mem {dir : Option DataDirView} {tag : PatchTag}
    {sp sp' : List PatchEntry} {ns : List PatchTag}
    (h : MarkDataDirectoryTimestamps dir tag sp = some (sp', ns)) :
    ∀ x ∈ sp', x ∈ sp ∨ x.tag = tag := by
  unfold MarkDataDirectoryTimestamps at h
  cases dir with
  | none =>
    simp only [Option.some.injEq, Prod.mk.injEq] at h
    rcases h with ⟨h1, -⟩
    subst h1
    exact fun x hx => Or.inl hx
  | some d =>
    dsimp only at h
    by_cases h0 : d.timeDateStamp = 0
    · rw [if_pos h0] at h
      simp only [Option.some.injEq, Prod.mk.injEq] at h
      rcases h with ⟨h1, -⟩
      subst h1
      exact fun x hx => Or.inl hx
    · rw [if_neg h0] at h
      cases hins : Insert sp (tsEntry d tag) with
      | none => rw [hins] at h; cases h
      | some sp1 =>
        rw [hins] at h
        simp only [Option.some.injEq, Prod.mk.injEq] at h
        rcases h with ⟨h1, -⟩
        subst h1
        intro x hx
        rcases (insert_mem sp (tsEntry d tag) sp1 hins x).mp hx with h' | h'
        · exact Or.inl h'
        · subst h'
          exact Or.inr rfl

lemma markDebugEntries_mem :
    ∀ (l : List DebugEntryView) (i : Nat) (cv : Option CodeViewView)
      (sp sp' : List PatchEntry) (ns : List PatchTag) (cv' : Option CodeViewView),
      MarkDebugEntries l i cv sp = some (sp', ns, cv') →
      ∀ x ∈ sp', x ∈ sp ∨ ∃ j, x.tag = PatchTag.debugTs j := by
  intro l
  induction l with
  | nil =>
    intro i cv sp sp' ns cv' h x hx
    simp only [MarkDebugEntries, Option.some.injEq, Prod.mk.injEq] at h
    rcases h with ⟨h1, -, -⟩
    subst h1
    exact Or.inl hx
  | cons e rest ih =>
    intro i cv sp sp' ns cv' h x hx
    unfold MarkDebugEntries at h
    cases hins : Insert sp ⟨e.tsOffset, 4, some (le32 timestamp_data_), PatchTag.debugTs i⟩ with
    | none => rw [hins] at h; cases h
    | some sp1 =>
      rw [hins] at h
      dsimp only at h
      have hnext : ∀ cv0, (MarkDebugEntries rest (i + 1) cv0 sp1).map
          (fun r => (r.1, PatchTag.debugTs i :: r.2.1, r.2.2)) = some (sp', ns, cv') →
          x ∈ sp' → x ∈ sp ∨ ∃ j, x.tag = PatchTag.debugTs j := by
        intro cv0 hmap hx'
        rcases Option.map_eq_some'.mp hmap with ⟨r, hr, heq⟩
        have h1 : sp' = r.1 := (congrArg Prod.fst heq).symm
        subst h1
        rcases ih (i + 1) cv0 sp1 r.1 r.2.1 r.2.2 (by rw [hr]) x hx' with h' | h'
        · rcases (insert_mem sp _ sp1 hins x).mp h' with h'' | h''
          · exact Or.inl h''
          · subst h''
            exact Or.inr ⟨i, rfl⟩
        · exact Or.inr h'
      cases hcve : e.codeView with
      | none =>
        rw [hcve] at h
        dsimp only at h
        exact hnext cv h hx
      | some c =>
        rw [hcve] at h
        dsimp only at h
        cases cv with
        | some _ => cases h
        | none =>
          dsimp only at h
          exact hnext (some c) h hx

lemma lookupTag_eq_of (sp : List PatchEntry) (t : PatchTag) (d : Option (List Nat))
    (hex : ∃ x, x ∈ sp ∧ x.tag = t)
    (hall : ∀ x ∈ sp, x.tag = t → x.data = d) :
    lookupTag sp t = some d := by
  unfold lookupTag
  cases hf : sp.find? (fun e => decide (e.tag = t)) with
  | none =>
    rw [List.find?_eq_none] at hf
    obtain ⟨x, hx, hxt⟩ := hex
    have := hf x hx
    simp [hxt] at this
  | some e =>
    have h1 := List.find?_some hf
    have h2 := List.mem_of_find?_eq_some hf
    simp only [decide_eq_true_eq] at h1
    simp [hall e h2 h1]

/-- C2: after a run that produces a PDB, the age written into the PDB
header info stream (at the `age` field after `timestamp`), the age
written by DBI normalization into `DbiHeader::age`, and the 4-byte age
carried by the "PDB Age" patch entry destined for the PE CodeView
record, all decode to `pdb_age_data_`, which the constructor sets
to 1. -/
theorem ages_all_equal_one
    (hdr hdr' dbi dbi' guid : List Nat) (pe : PEView)
    (sp' : List PatchEntry) (ord : List PatchTag)
    (h1 : UpdatePdbHeaderInfo guid hdr = some hdr')
    (h2 : NormalizeDbiStream pdb_age_data_ dbi = Except.ok dbi')
    (h3 : MarkPeFileRanges pe guid [] = some (sp', ord))
    (h4 : pe.hasPdb = true) :
    readU32 hdr' pdbInfoAgeOffset = some pdb_age_data_ ∧
    readU32 dbi' dbiAgeOffset = some pdb_age_data_ ∧
    lookupTag sp' PatchTag.pdbAge = some (some (le32 pdb_age_data_)) ∧
    pdb_age_data_ = 1 := by
  refine ⟨updatePdbHeader_age h1, normalizeDbi_age h2, ?_, rfl⟩
  unfold MarkPeFileRanges at h3
  rw [h4] at h3
  cases hm1 : MarkDataDirectoryTimestamps pe.exportDir PatchTag.exportTs [] with
  | none => rw [hm1] at h3; cases h3
  | some r1 =>
    rw [hm1] at h3
    obtain ⟨sp1, n1⟩ := r1
    dsimp only at h3
    cases hm2 : MarkDataDirectoryTimestamps pe.resourceDir PatchTag.resourceTs sp1 with
    | none => rw [hm2] at h3; cases h3
    | some r2 =>
      rw [hm2] at h3
      obtain ⟨sp2, n2⟩ := r2
      dsimp only at h3
      cases hm3 : MarkDebugEntries pe.debugEntries 0 none sp2 with
      | none => rw [hm3] at h3; cases h3
      | some r3 =>
        rw [hm3] at h3
        obtain ⟨sp3, n3, cv⟩ := r3
        dsimp only at h3
        cases hm4 : MarkCvEntries true cv guid sp3 with
        | none => rw [hm4] at h3; cases h3
        | some r4 =>
          rw [hm4] at h3
          obtain ⟨sp4, n4⟩ := r4
          dsimp only at h3
          cases hm5 : Insert sp4 ⟨pe.checksumOffset, 4, none, PatchTag.peChecksum⟩ with
          | none => rw [hm5] at h3; cases h3
          | some sp5 =>
            rw [hm5] at h3
            dsimp only at h3
            cases hm6 : Insert sp5 ⟨pe.peTimestampOffset, 4,
                some (le32 timestamp_data_), PatchTag.peTimestamp⟩ with
            | none => rw [hm6] at h3; cases h3
            | some sp6 =>
              rw [hm6] at h3
              dsimp only at h3
              simp only [Option.some.injEq, Prod.mk.injEq] at h3
              rcases h3 with ⟨hsp, -⟩
              subst hsp
              -- dissect the CodeView marking
              unfold MarkCvEntries at hm4
              rw [if_pos rfl] at hm4
              cases cv with
              | none => cases hm4
              | some c =>
                dsimp only at hm4
                cases hma : Insert sp3 ⟨c.ageOffset, 4, some (le32 pdb_age_data_),
                    PatchTag.pdbAge⟩ with
                | none => rw [hma] at hm4; cases hm4
                | some sp3a =>
                  rw [hma] at hm4
                  dsimp only at hm4
                  cases hmg : Insert sp3a ⟨c.guidOffset, 16, some guid,
                      PatchTag.pdbGuid⟩ with
                  | none => rw [hmg] at hm4; cases hm4
                  | some sp3b =>
                    rw [hmg] at hm4
                    simp only [Option.some.injEq, Prod.mk.injEq] at hm4
                    rcases hm4 with ⟨hsp4, -⟩
                    subst hsp4
                    apply lookupTag_eq_of
                    · -- the age entry is a member of the final space
                      refine ⟨⟨c.ageOffset, 4, some (le32 pdb_age_data_),
                        PatchTag.pdbAge⟩, ?_, rfl⟩
                      apply (insert_mem _ _ _ hm6 _).mpr
                      apply Or.inl
                      apply (insert_mem _ _ _ hm5 _).mpr
                      apply Or.inl
                      apply (insert_mem _ _ _ hmg _).mpr
                      apply Or.inl
                      exact (insert_mem _ _ _ hma _).mpr (Or.inr rfl)
                    · -- every pdbAge-tagged entry of the final space is the age entry
                      intro x hx hxt
                      rcases (insert_mem _ _ _ hm6 _).mp hx with hx | hx
                      · rcases (insert_mem _ _ _ hm5 _).mp hx with hx | hx
                        · rcases (insert_mem _ _ _ hmg _).mp hx with hx | hx
                          · rcases (insert_mem _ _ _ hma _).mp hx with hx | hx
                            · rcases markDebugEntries_mem _ _ _ _ _ _ _ hm3 x hx
                                with hx | hx
                              · rcases markDataDirectoryTimestamps_mem hm2 x hx
                                  with hx | hx
                                · rcases markDataDirectoryTimestamps_mem hm1 x hx
                                    with hx | hx
                                  · simp at hx
                                  · rw [hx] at hxt; cases hxt
                                · rw [hx] at hxt; cases hxt
                              · obtain ⟨j, hj⟩ := hx
                                rw [hj] at hxt; cases hxt
                            · subst hx; rfl
                          · subst hx; cases hxt
                        · subst hx; cases hxt
                      · subst hx; cases hxt

/-- Witness for C2: on `richPe` with a zero GUID, a 28-byte header
stream and a 64-byte DBI stream, all three stored age values decode
to 1. -/
theorem ages_all_equal_one_witness :
    readU32 [0, 0, 0, 0, 0, 59, 61, 75, 1, 0, 0, 0, 0, 0, 0, 0, 0, 0, 0, 0, 0, 0,
      0, 0, 0, 0, 0, 0] pdbInfoAgeOffset = some pdb_age_data_ ∧
    readU32 (List.replicate 8 0 ++ ([1, 0, 0, 0] ++ List.replicate 52 0))
      dbiAgeOffset = some pdb_age_data_ ∧
    lookupTag [⟨100, 4, some (le32 timestamp_data_), PatchTag.exportTs⟩,
      ⟨200, 4, some (le32 timestamp_data_), PatchTag.resourceTs⟩,
      ⟨300, 4, some (le32 timestamp_data_), PatchTag.debugTs 0⟩,
      ⟨400, 4, some (le32 pdb_age_data_), PatchTag.pdbAge⟩,
      ⟨404, 16, some (List.replicate 16 0), PatchTag.pdbGuid⟩,
      ⟨500, 4, none, PatchTag.peChecksum⟩,
      ⟨600, 4, some (le32 timestamp_data_), PatchTag.peTimestamp⟩]
      PatchTag.pdbAge = some (some (le32 pdb_age_data_)) ∧
    pdb_age_data_ = 1 :=
  ages_all_equal_one (List.replicate 28 0)
    [0, 0, 0, 0, 0, 59, 61, 75, 1, 0, 0, 0, 0, 0, 0, 0, 0, 0, 0, 0, 0, 0, 0, 0,
      0, 0, 0, 0]
    (List.replicate 64 0) (List.replicate 8 0 ++ ([1, 0, 0, 0] ++ List.replicate 52 0))
    (List.replicate 16 0) richPe
    [⟨100, 4, some (le32 timestamp_data_), PatchTag.exportTs⟩,
      ⟨200, 4, some (le32 timestamp_data_), PatchTag.resourceTs⟩,
      ⟨300, 4, some (le32 timestamp_data_), PatchTag.debugTs 0⟩,
      ⟨400, 4, some (le32 pdb_age_data_), PatchTag.pdbAge⟩,
      ⟨404, 16, some (List.replicate 16 0), PatchTag.pdbGuid⟩,
      ⟨500, 4, none, PatchTag.peChecksum⟩,
      ⟨600, 4, some (le32 timestamp_data_), PatchTag.peTimestamp⟩]
    [PatchTag.exportTs, PatchTag.resourceTs, PatchTag.debugTs 0, PatchTag.pdbAge,
      PatchTag.pdbGuid, PatchTag.peChecksum, PatchTag.peTimestamp]
    (by rfl) (by rfl) (by rfl) rfl

end ZapTimestamp
